import Mathlib

/-!
Verification development for the InputMCP repository.

The definitions below are shallow embeddings of the TypeScript sources:
* `src/create.ts` (launchInputPrompt, normalizeSpec),
* `src/shared/types.ts` (zod schemas, error classes),
* `shared/cache.ts` (cleanOldCache),
* `ui/src/window.ts` (parseWindowSpec, respond),
* `ui/modules/pixel.ts` (floodFill).

JavaScript values produced by JSON.parse are modelled by the inductive
type `JVal`; JSON numbers are modelled as rationals (every JSON numeric
literal denotes a rational, and the values relevant to the claims are
small integers on which double rounding is exact).  Fallible TypeScript
code (zod `.parse`, which throws) is modelled with `Except`.
-/

/-- Model of a JavaScript value produced by JSON.parse: null, booleans,
numbers, strings, arrays and objects.  JSON.parse never yields
`undefined`, `NaN` or infinities, so finite rationals suffice for the
number case. -/
inductive JVal where
  | jnull : JVal
  | jbool : Bool → JVal
  | jnum : ℚ → JVal
  | jstr : String → JVal
  | jarr : List JVal → JVal
  | jobj : List (String × JVal) → JVal

/-- First binding of a key in a JavaScript object literal list. -/
def lookupField : List (String × JVal) → String → Option JVal
  | [], _ => none
  | (k, v) :: rest, key => if k = key then some v else lookupField rest key

/-- JavaScript property access `v.key` on a non-null value: returns the
field for objects and `undefined` (`none`) for every other non-null
value.  Access on `null` throws a TypeError; callers model that case
separately. -/
def JVal.prop : JVal → String → Option JVal
  | .jobj fields, key => lookupField fields key
  | _, _ => none

/-- JavaScript strict equality of a value against a string literal, as in
`parsed.action === "submit"`. -/
def JVal.isStr : JVal → String → Bool
  | .jstr s, t => s = t
  | _, _ => false

/-- Strict equality against a string literal for a possibly-undefined
property (`undefined === "submit"` is false). -/
def optIsStr (v : Option JVal) (t : String) : Bool :=
  match v with
  | some w => w.isStr t
  | none => false

/-- JavaScript string coercion of a value, as used by template literals.
Arrays join their elements with commas and plain objects display as
[object Object]. -/
def jsDisplay : JVal → String
  | .jnull => "null"
  | .jbool true => "true"
  | .jbool false => "false"
  | .jnum q => toString q
  | .jstr s => s
  | .jarr xs => String.intercalate "," (xs.attach.map (fun p => jsDisplay p.1))
  | .jobj _ => "[object Object]"
decreasing_by
  simp_wf
  have := List.sizeOf_lt_of_mem p.2
  omega

/-- String coercion of a possibly-undefined property, as in the template
literal interpolation of `parsed.action`. -/
def jsOptDisplay : Option JVal → String
  | none => "undefined"
  | some v => jsDisplay v

/-- Display of the exit code received by the exit listener
(`number | null` in TypeScript). -/
def codeDisplay : Option Int → String
  | none => "null"
  | some n => toString n

/-- The two error classes declared in `src/shared/types.ts`:
`InputCancelledError` (no payload) and `InputFailedError` (carries the
raw message passed to its constructor). -/
inductive PromptErr where
  | inputCancelled : PromptErr
  | inputFailed : String → PromptErr
deriving DecidableEq

/-- The `name` property each error class assigns in its constructor. -/
def PromptErr.errName : PromptErr → String
  | .inputCancelled => "InputCancelledError"
  | .inputFailed _ => "InputFailedError"

/-- The `message` property of each error: the cancelled error uses the
fixed text and the failed error prefixes the supplied message. -/
def PromptErr.errMessage : PromptErr → String
  | .inputCancelled => "User cancelled the input"
  | .inputFailed m => "Input collection failed: " ++ m

/-- Outcome of the promise returned by `launchInputPrompt`: resolution
with `parsed.result` (which is `undefined` when the field is absent) or
rejection with one of the two error classes. -/
inductive LaunchOutcome where
  | resolved : Option JVal → LaunchOutcome
  | rejected : PromptErr → LaunchOutcome

/-- The error class name of a rejected outcome, `none` on resolution. -/
def LaunchOutcome.errClass : LaunchOutcome → Option String
  | .resolved _ => none
  | .rejected e => some e.errName

/-- The action dispatch of `launchInputPrompt` (src/create.ts, exit
listener): examines `parsed.action` and resolves on submit, rejects with
`InputCancelledError` on cancel, rejects with `InputFailedError` carrying
`parsed.message` on error, and rejects with `InputFailedError` naming the
action otherwise. -/
def handleParsedResponse (parsed : JVal) : LaunchOutcome :=
  if optIsStr (parsed.prop "action") "submit" then
    .resolved (parsed.prop "result")
  else if optIsStr (parsed.prop "action") "cancel" then
    .rejected .inputCancelled
  else if optIsStr (parsed.prop "action") "error" then
    .rejected (.inputFailed (jsOptDisplay (parsed.prop "message")))
  else
    .rejected (.inputFailed ("Unknown action: " ++ jsOptDisplay (parsed.prop "action")))

/-- The falsiness test `!stdout.trim()`: the trimmed string is empty
exactly when every character of the buffer is whitespace. -/
def replyBlank (s : String) : Bool :=
  s.data.all Char.isWhitespace

/-- The exit listener of `launchInputPrompt` (src/create.ts): nonzero or
null exit code rejects, an empty (after trim) reply buffer rejects, text
that JSON.parse cannot parse rejects, a parse result of `null` rejects
(property access on null throws inside the same try block), and any
other parse result is classified by the action dispatch.  `parse` stands
for JSON.parse, returning `none` when it would throw. -/
def onChildExit (parse : String → Option JVal) (code : Option Int) (stdout : String) :
    LaunchOutcome :=
  if code ≠ some 0 then
    .rejected (.inputFailed ("Electron process exited with code " ++ codeDisplay code))
  else if replyBlank stdout then
    .rejected (.inputFailed "No response from Electron process")
  else
    match parse stdout with
    | none => .rejected (.inputFailed ("Invalid JSON response: " ++ stdout))
    | some .jnull => .rejected (.inputFailed ("Invalid JSON response: " ++ stdout))
    | some parsed => handleParsedResponse parsed

/-- Text formats accepted by the text schema. -/
inductive TextFormat where
  | fmtText : TextFormat
  | fmtJson : TextFormat
deriving DecidableEq

/-- SubmissionResult from `src/shared/types.ts`: a discriminated union on
`kind` with a text, an image and a pixelart variant. -/
inductive SubmissionResult where
  | text : String → TextFormat → SubmissionResult
  | image : String → String → SubmissionResult
  | pixelart : String → String → SubmissionResult
deriving DecidableEq

/-- ResponsePayload from `ui/src/window.ts`: the wire envelope written
once to stdout by the UI subprocess. -/
inductive ResponsePayload where
  | submit : SubmissionResult → ResponsePayload
  | cancel : ResponsePayload
  | error : String → ResponsePayload
deriving DecidableEq

/-- The three events of `ui/src/window.ts` that call `respond`: the
renderer submit IPC message, the renderer cancel IPC message, and the
window closed event. -/
inductive Trigger where
  | ipcSubmit : SubmissionResult → Trigger
  | ipcCancel : Trigger
  | windowClosed : Trigger
deriving DecidableEq

/-- The envelope each trigger passes to `respond`: the closed event and
the cancel IPC both send a cancel envelope. -/
def payloadOf : Trigger → ResponsePayload
  | .ipcSubmit r => .submit r
  | .ipcCancel => .cancel
  | .windowClosed => .cancel

/-- State of the UI subprocess relevant to the reply protocol: the
`responded` flag, the envelopes written to stdout so far, and the exit
code passed to process.exit if it was called. -/
structure SubprocState where
  responded : Bool
  emitted : List ResponsePayload
  exitCode : Option Nat
deriving DecidableEq

/-- The `respond` function of `ui/src/window.ts`: a no-op when the
`responded` flag is already set, otherwise it sets the flag, writes the
envelope to stdout and exits with code 0. -/
def respond (s : SubprocState) (p : ResponsePayload) : SubprocState :=
  if s.responded then s
  else { responded := true, emitted := s.emitted ++ [p], exitCode := some 0 }

/-- Run a sequence of triggers against the initial subprocess state
(flag clear, nothing emitted, still running). -/
def runTriggers (ts : List Trigger) : SubprocState :=
  ts.foldl (fun s t => respond s (payloadOf t)) ⟨false, [], none⟩

/-- JSON.stringify image of a SubmissionResult, as the renderer sends it. -/
def encodeResult : SubmissionResult → JVal
  | .text v .fmtText => .jobj [("kind", .jstr "text"), ("value", .jstr v), ("format", .jstr "text")]
  | .text v .fmtJson => .jobj [("kind", .jstr "text"), ("value", .jstr v), ("format", .jstr "json")]
  | .image d m => .jobj [("kind", .jstr "image"), ("dataUrl", .jstr d), ("mimeType", .jstr m)]
  | .pixelart d m => .jobj [("kind", .jstr "pixelart"), ("dataUrl", .jstr d), ("mimeType", .jstr m)]

/-- JSON.stringify image of a ResponsePayload, i.e. the value the parent
recovers by parsing the line `respond` wrote to stdout. -/
def encodePayload : ResponsePayload → JVal
  | .submit r => .jobj [("action", .jstr "submit"), ("result", encodeResult r)]
  | .cancel => .jobj [("action", .jstr "cancel")]
  | .error m => .jobj [("action", .jstr "error"), ("message", .jstr m)]

/-- A file observed in the images cache directory, together with flags
saying whether its stat or unlink call would fail.  The modification
time is in milliseconds, as Node reports it. -/
structure CacheFile where
  fname : String
  mtimeMs : Int
  statFails : Bool
  unlinkFails : Bool
deriving DecidableEq

/-- The loop body of `cleanOldCache` (shared/cache.ts).  The try block
wraps the whole loop, so a throwing stat or unlink aborts the remaining
iterations: the function returns the count and deletions accumulated so
far.  Result: (deletedCount, names of deleted files). -/
def sweepFiles (now maxAge : Int) : List CacheFile → Nat × List String
  | [] => (0, [])
  | f :: rest =>
    if f.statFails then (0, [])
    else if now - f.mtimeMs > maxAge then
      if f.unlinkFails then (0, [])
      else
        let r := sweepFiles now maxAge rest
        (r.1 + 1, f.fname :: r.2)
    else sweepFiles now maxAge rest

/-- `cleanOldCache` (shared/cache.ts): lists the images directory; a
missing directory makes readdir throw, which the catch turns into zero
deletions.  Otherwise each listed file older than
daysToKeep * 24h (strictly) is unlinked and counted. -/
def cleanOldCache (dirExists : Bool) (files : List CacheFile) (now : Int)
    (daysToKeep : Int) : Nat × List String :=
  if dirExists then sweepFiles now (daysToKeep * 24 * 60 * 60 * 1000) files
  else (0, [])

/-- Retention predicate of the sweep: strictly older than the threshold. -/
def isStale (now maxAge : Int) (f : CacheFile) : Bool :=
  decide (now - f.mtimeMs > maxAge)

/-- WindowSpec from `ui/src/window.ts`: the window sizing information
recovered from the MCP_INPUT_SPEC environment variable. -/
inductive WindowSpec where
  | text : Int → WindowSpec
  | image : Int → Int → WindowSpec
  | pixelart : Int → Int → Int → WindowSpec
deriving DecidableEq

/-- The `typeof parsed.f === "number" && Number.isFinite(parsed.f)`
projection of a property: a rational for a JSON number (JSON numbers are
always finite), `undefined` otherwise. -/
def numProp (v : JVal) (key : String) : Option ℚ :=
  match v.prop key with
  | some (.jnum q) => some q
  | _ => none

/-- `raw !== undefined ? Math.max(lo, Math.min(hi, Math.floor(raw))) : dflt`
as used for every numeric field of parseWindowSpec. -/
def clampField (lo hi dflt : Int) (v : Option ℚ) : Int :=
  match v with
  | some q => max lo (min hi q.floor)
  | none => dflt

/-- `parseWindowSpec` (ui/src/window.ts).  The argument distinguishes an
absent environment variable (`none`), a set variable whose text
JSON.parse rejects (`some none`) and a successful parse (`some (some v)`).
A parse result of `null` throws on the first property access inside the
try block, which the catch turns into the default text spec. -/
def parseWindowSpec (raw : Option (Option JVal)) : WindowSpec :=
  match raw with
  | none => .text 1
  | some none => .text 1
  | some (some .jnull) => .text 1
  | some (some parsed) =>
    if optIsStr (parsed.prop "kind") "pixelart" then
      .pixelart (clampField 4 128 16 (numProp parsed "gridWidth"))
        (clampField 4 128 16 (numProp parsed "gridHeight"))
        (clampField 4 64 20 (numProp parsed "cellSize"))
    else if optIsStr (parsed.prop "kind") "image" then
      .image (clampField 32 4096 512 (numProp parsed "width"))
        (clampField 32 4096 512 (numProp parsed "height"))
    else
      .text (clampField 1 20 1 (numProp parsed "lines"))

/-- Declared ranges of the numeric fields of a WindowSpec. -/
def windowSpecInRange : WindowSpec → Prop
  | .text l => 1 ≤ l ∧ l ≤ 20
  | .image w h => 32 ≤ w ∧ w ≤ 4096 ∧ 32 ≤ h ∧ h ≤ 4096
  | .pixelart gw gh cs =>
      4 ≤ gw ∧ gw ≤ 128 ∧ 4 ≤ gh ∧ gh ≤ 128 ∧ 4 ≤ cs ∧ cs ≤ 64

/-- A zod validation failure naming the offending field. -/
structure ValidationError where
  offendingField : String
deriving DecidableEq

/-- The caller-supplied, possibly-partial input to the zod schemas of
`src/shared/types.ts`.  `none` models an absent key (the default
applies); numeric fields carry the JSON number (a rational), on which
the `.int()` check is performed by the schema. -/
structure RawInput where
  kind : Option String := none
  ui : Option String := none
  message : Option String := none
  submitLabel : Option String := none
  placeholder : Option String := none
  lines : Option ℚ := none
  format : Option TextFormat := none
  width : Option ℚ := none
  height : Option ℚ := none
  gridWidth : Option ℚ := none
  gridHeight : Option ℚ := none
  cellSize : Option ℚ := none
  palette : Option (List String) := none
  backgroundColor : Option String := none
  mimeType : Option String := none
deriving DecidableEq

/-- `z.number().int().min(lo).max(hi).default(d)`: an absent value takes
the default, a present value must be an integer within [lo, hi] and is
returned unchanged; otherwise the parse fails naming the field. -/
def parseIntField (v : Option ℚ) (lo hi dflt : Int) (e : ValidationError) :
    Except ValidationError Int :=
  match v with
  | none => .ok dflt
  | some q =>
    if q.den ≠ 1 then .error e
    else if q < (lo : ℚ) then .error e
    else if (hi : ℚ) < q then .error e
    else .ok q.num

/-- `z.literal(lit).default(lit)`: an absent value defaults, a present
value must equal the literal. -/
def literalOK (v : Option String) (lit : String) : Bool :=
  match v with
  | none => true
  | some s => s = lit

/-- TextInputSpec as inferred from TextInputSpecSchema (the `ui` field is
the literal equal to `kind` and is not stored). -/
structure TextInputSpec where
  message : String
  submitLabel : String
  placeholder : String
  lines : Int
  format : TextFormat
deriving DecidableEq

/-- ImageInputSpec as inferred from ImageInputSpecSchema. -/
structure ImageInputSpec where
  message : String
  submitLabel : String
  width : Int
  height : Int
  mimeType : String
  backgroundColor : Option String
deriving DecidableEq

/-- PixelArtInputSpec as inferred from PixelArtInputSpecSchema. -/
structure PixelArtInputSpec where
  message : String
  submitLabel : String
  gridWidth : Int
  gridHeight : Int
  cellSize : Int
  palette : List String
  backgroundColor : String
  mimeType : String
deriving DecidableEq

/-- InputSpec: the discriminated union of the three spec variants. -/
inductive InputSpec where
  | text : TextInputSpec → InputSpec
  | image : ImageInputSpec → InputSpec
  | pixelart : PixelArtInputSpec → InputSpec
deriving DecidableEq

/-- TextInputSpecSchema.parse (src/shared/types.ts): kind must be the
literal text, ui defaults to text, strings default, lines is an integer
in [1, 20] defaulting to 1, format defaults to text. -/
def TextInputSpecSchema.parse (r : RawInput) : Except ValidationError TextInputSpec :=
  if r.kind ≠ some "text" then .error ⟨"kind"⟩
  else if ¬ literalOK r.ui "text" then .error ⟨"ui"⟩
  else
    match parseIntField r.lines 1 20 1 ⟨"lines"⟩ with
    | .error e => .error e
    | .ok lines =>
      .ok { message := r.message.getD "Enter your input:"
          , submitLabel := r.submitLabel.getD "Send"
          , placeholder := r.placeholder.getD "Type something here..."
          , lines := lines
          , format := r.format.getD .fmtText }

/-- ImageInputSpecSchema.parse (src/shared/types.ts): width and height
are integers in [32, 4096] defaulting to 512; backgroundColor is
optional with no default. -/
def ImageInputSpecSchema.parse (r : RawInput) : Except ValidationError ImageInputSpec :=
  if r.kind ≠ some "image" then .error ⟨"kind"⟩
  else if ¬ literalOK r.ui "image" then .error ⟨"ui"⟩
  else
    match parseIntField r.width 32 4096 512 ⟨"width"⟩ with
    | .error e => .error e
    | .ok width =>
      match parseIntField r.height 32 4096 512 ⟨"height"⟩ with
      | .error e => .error e
      | .ok height =>
        .ok { message := r.message.getD "Draw your input:"
            , submitLabel := r.submitLabel.getD "Send"
            , width := width
            , height := height
            , mimeType := r.mimeType.getD "image/png"
            , backgroundColor := r.backgroundColor }

/-- The default palette of PixelArtInputSpecSchema. -/
def defaultPalette : List String :=
  ["#000000", "#FFFFFF", "#f28478", "#a8e6cf", "#80b7ff", "#ffd89b", "#dda0dd", "#b0e0e6"]

/-- PixelArtInputSpecSchema.parse (src/shared/types.ts): grid dimensions
are integers in [4, 128] defaulting to 16, cellSize an integer in
[4, 64] defaulting to 20; palette, backgroundColor and mimeType default. -/
def PixelArtInputSpecSchema.parse (r : RawInput) :
    Except ValidationError PixelArtInputSpec :=
  if r.kind ≠ some "pixelart" then .error ⟨"kind"⟩
  else if ¬ literalOK r.ui "pixelart" then .error ⟨"ui"⟩
  else
    match parseIntField r.gridWidth 4 128 16 ⟨"gridWidth"⟩ with
    | .error e => .error e
    | .ok gridWidth =>
      match parseIntField r.gridHeight 4 128 16 ⟨"gridHeight"⟩ with
      | .error e => .error e
      | .ok gridHeight =>
        match parseIntField r.cellSize 4 64 20 ⟨"cellSize"⟩ with
        | .error e => .error e
        | .ok cellSize =>
          .ok { message := r.message.getD "Create your pixel art:"
              , submitLabel := r.submitLabel.getD "Send"
              , gridWidth := gridWidth
              , gridHeight := gridHeight
              , cellSize := cellSize
              , palette := r.palette.getD defaultPalette
              , backgroundColor := r.backgroundColor.getD "#FFFFFF"
              , mimeType := r.mimeType.getD "image/png" }

/-- InputSpecSchema.parse: the discriminated union dispatches on the
kind field and applies the matching variant schema; a missing or
unrecognized discriminant fails naming kind. -/
def InputSpecSchema.parse (r : RawInput) : Except ValidationError InputSpec :=
  if r.kind = some "text" then (TextInputSpecSchema.parse r).map .text
  else if r.kind = some "image" then (ImageInputSpecSchema.parse r).map .image
  else if r.kind = some "pixelart" then (PixelArtInputSpecSchema.parse r).map .pixelart
  else .error ⟨"kind"⟩

/-- validateInputSpec (src/shared/types.ts): InputSpecSchema.parse. -/
def validateInputSpec (r : RawInput) : Except ValidationError InputSpec :=
  InputSpecSchema.parse r

/-- The kind tags accepted by normalizeSpec. -/
inductive InputKind where
  | text : InputKind
  | image : InputKind
  | pixelart : InputKind
deriving DecidableEq

/-- A raw input carrying only a kind tag, as in `parse({ kind: k })`. -/
def kindOnlyRaw (k : String) : RawInput := { kind := some k }

/-- normalizeSpec (src/create.ts): resolves a missing kind to text and
parses a kind-only object with the matching variant schema, producing a
fully-defaulted spec. -/
def normalizeSpec (kind : Option InputKind) : Except ValidationError InputSpec :=
  match kind.getD .text with
  | .image => (ImageInputSpecSchema.parse (kindOnlyRaw "image")).map .image
  | .pixelart => (PixelArtInputSpecSchema.parse (kindOnlyRaw "pixelart")).map .pixelart
  | .text => (TextInputSpecSchema.parse (kindOnlyRaw "text")).map .text

/-- The JavaScript object a parsed InputSpec denotes when fed back to the
validator: every field present, numeric fields as (integral) numbers,
the kind and ui discriminants set to the variant tag. -/
def specToRaw : InputSpec → RawInput
  | .text s =>
    { kind := some "text", ui := some "text", message := some s.message
    , submitLabel := some s.submitLabel, placeholder := some s.placeholder
    , lines := some (s.lines : ℚ), format := some s.format }
  | .image s =>
    { kind := some "image", ui := some "image", message := some s.message
    , submitLabel := some s.submitLabel, width := some (s.width : ℚ)
    , height := some (s.height : ℚ), mimeType := some s.mimeType
    , backgroundColor := s.backgroundColor }
  | .pixelart s =>
    { kind := some "pixelart", ui := some "pixelart", message := some s.message
    , submitLabel := some s.submitLabel, gridWidth := some (s.gridWidth : ℚ)
    , gridHeight := some (s.gridHeight : ℚ), cellSize := some (s.cellSize : ℚ)
    , palette := some s.palette, backgroundColor := some s.backgroundColor
    , mimeType := some s.mimeType }

/-- Declared ranges of the numeric fields of each InputSpec variant. -/
def specFieldsInRange : InputSpec → Prop
  | .text s => 1 ≤ s.lines ∧ s.lines ≤ 20
  | .image s => 32 ≤ s.width ∧ s.width ≤ 4096 ∧ 32 ≤ s.height ∧ s.height ≤ 4096
  | .pixelart s =>
      4 ≤ s.gridWidth ∧ s.gridWidth ≤ 128 ∧ 4 ≤ s.gridHeight ∧ s.gridHeight ≤ 128 ∧
      4 ≤ s.cellSize ∧ s.cellSize ≤ 64

/-- A cell coordinate of the pixel grid.  The loop of floodFill pushes
coordinates one step outside the grid, so integers are used. -/
abbrev Cell := Int × Int

/-- The pixel matrix `grid.pixels` of ui/modules/pixel.ts, indexed as
`pixels y x`.  Every read and write in floodFill is guarded by a bounds
check, so a total function is a faithful model of the 2-D array. -/
abbrev Pixels := Int → Int → String

/-- Assignment `grid.pixels[y][x] = c`. -/
def setPix (g : Pixels) (x y : Int) (c : String) : Pixels :=
  fun y' x' => if y' = y ∧ x' = x then c else g y' x'

/-- The in-bounds test of floodFill, negation of
`x < 0 || x >= gridWidth || y < 0 || y >= gridHeight`. -/
def inb (w h x y : Int) : Prop := 0 ≤ x ∧ x < w ∧ 0 ≤ y ∧ y < h

instance (w h x y : Int) : Decidable (inb w h x y) := by
  unfold inb; infer_instance

/-- The four neighbours pushed by floodFill, in push order. -/
def nbrs : Cell → List Cell
  | (x, y) => [(x + 1, y), (x - 1, y), (x, y + 1), (x, y - 1)]

/-- Cells a worklist iteration may ever hold: the grid extended by one
in every direction.  Used only as a termination measure. -/
def cellBox (w h : Int) : Finset Cell :=
  Finset.Icc (-1) w ×ˢ Finset.Icc (-1) h

/-- The while loop of floodFill (ui/modules/pixel.ts): pop a cell, skip
it if already visited, mark it visited, skip it if out of bounds or not
of the target color, otherwise recolor it and push its four neighbours. -/
def ffLoop (w h : Int) (target fill : String) :
    List Cell → Finset Cell → Pixels → Pixels
  | [], _, g => g
  | (x, y) :: rest, visited, g =>
    if h1 : (x, y) ∈ visited then
      ffLoop w h target fill rest visited g
    else if h2 : ¬ inb w h x y then
      ffLoop w h target fill rest (insert (x, y) visited) g
    else if h3 : g y x ≠ target then
      ffLoop w h target fill rest (insert (x, y) visited) g
    else
      ffLoop w h target fill
        ((x + 1, y) :: (x - 1, y) :: (x, y + 1) :: (x, y - 1) :: rest)
        (insert (x, y) visited) (setPix g x y fill)
termination_by stack visited _ => ((cellBox w h \ visited).card, stack.length)
decreasing_by
  · apply Prod.Lex.right
    simp
  · rcases Decidable.em ((x, y) ∈ cellBox w h) with hbox | hbox
    · apply Prod.Lex.left
      apply Finset.card_lt_card
      constructor
      · exact Finset.sdiff_subset_sdiff (le_refl _) (Finset.subset_insert _ _)
      · intro hsub
        have hmem : (x, y) ∈ cellBox w h \ visited := Finset.mem_sdiff.mpr ⟨hbox, h1⟩
        have := hsub hmem
        simp [Finset.mem_sdiff] at this
    · have heq : cellBox w h \ insert (x, y) visited = cellBox w h \ visited := by
        ext c
        simp only [Finset.mem_sdiff, Finset.mem_insert]
        constructor
        · rintro ⟨hc, hno⟩
          exact ⟨hc, fun hv => hno (Or.inr hv)⟩
        · rintro ⟨hc, hno⟩
          refine ⟨hc, fun hv => ?_⟩
          rcases hv with hv | hv
          · exact hbox (hv ▸ hc)
          · exact hno hv
      rw [heq]
      apply Prod.Lex.right
      simp
  · rcases Decidable.em ((x, y) ∈ cellBox w h) with hbox | hbox
    · apply Prod.Lex.left
      apply Finset.card_lt_card
      constructor
      · exact Finset.sdiff_subset_sdiff (le_refl _) (Finset.subset_insert _ _)
      · intro hsub
        have hmem : (x, y) ∈ cellBox w h \ visited := Finset.mem_sdiff.mpr ⟨hbox, h1⟩
        have := hsub hmem
        simp [Finset.mem_sdiff] at this
    · have heq : cellBox w h \ insert (x, y) visited = cellBox w h \ visited := by
        ext c
        simp only [Finset.mem_sdiff, Finset.mem_insert]
        constructor
        · rintro ⟨hc, hno⟩
          exact ⟨hc, fun hv => hno (Or.inr hv)⟩
        · rintro ⟨hc, hno⟩
          refine ⟨hc, fun hv => ?_⟩
          rcases hv with hv | hv
          · exact hbox (hv ▸ hc)
          · exact hno hv
      rw [heq]
      apply Prod.Lex.right
      simp
  · apply Prod.Lex.left
    have hb : (x, y) ∈ cellBox w h := by
      rw [Decidable.not_not] at h2
      obtain ⟨hx0, hxw, hy0, hyh⟩ := h2
      simp only [cellBox, Finset.mem_product, Finset.mem_Icc]
      omega
    apply Finset.card_lt_card
    constructor
    · exact Finset.sdiff_subset_sdiff (le_refl _) (Finset.subset_insert _ _)
    · intro hsub
      have hmem : (x, y) ∈ cellBox w h \ visited := Finset.mem_sdiff.mpr ⟨hb, h1⟩
      have := hsub hmem
      simp [Finset.mem_sdiff] at this

/-- floodFill (ui/modules/pixel.ts): no-op when target equals fill, when
the start is out of bounds, or when the start cell is not of the target
color; otherwise runs the worklist loop from the start cell. -/
def floodFill (w h : Int) (startX startY : Int) (targetColor fillColor : String)
    (g : Pixels) : Pixels :=
  if targetColor = fillColor then g
  else if ¬ inb w h startX startY then g
  else if g startY startX ≠ targetColor then g
  else ffLoop w h targetColor fillColor [(startX, startY)] ∅ g

/-- Reachability through the original grid: the cells connected to the
start by 4-connected paths through cells of the target color (start
included, itself required in bounds and of the target color). -/
inductive Reach (w h : Int) (g : Pixels) (t : String) (s : Cell) : Cell → Prop where
  | refl : inb w h s.1 s.2 → g s.2 s.1 = t → Reach w h g t s s
  | step {p q : Cell} : Reach w h g t s p → q ∈ nbrs p → inb w h q.1 q.2 →
      g q.2 q.1 = t → Reach w h g t s q

lemma foldl_respond_of_responded (ts : List Trigger) (s : SubprocState)
    (hs : s.responded = true) :
    ts.foldl (fun s t => respond s (payloadOf t)) s = s := by
  induction ts with
  | nil => rfl
  | cons t rest ih =>
    have : respond s (payloadOf t) = s := by
      unfold respond
      simp [hs]
    simp only [List.foldl_cons, this]
    exact ih

/-- Claim C3: exactly one envelope per subprocess lifetime.  For any nonempty
sequence of submit, cancel and close triggers, only the first trigger
writes its envelope to stdout, every later trigger is a no-op, and the
emission exits the subprocess with code 0; with no triggers nothing is
emitted and the subprocess keeps running. -/
theorem respond_single_envelope :
    runTriggers [] = ⟨false, [], none⟩ ∧
    ∀ (t : Trigger) (rest : List Trigger),
      runTriggers (t :: rest) = ⟨true, [payloadOf t], some 0⟩ := by
  refine ⟨rfl, fun t rest => ?_⟩
  unfold runTriggers
  simp only [List.foldl_cons]
  have h1 : respond ⟨false, [], none⟩ (payloadOf t) = ⟨true, [payloadOf t], some 0⟩ := by
    unfold respond
    simp
  rw [h1]
  exact foldl_respond_of_responded rest _ rfl

/-- Claim C7: flood fill with target color equal to the replacement color is a
no-op, on every grid and every start position. -/
theorem floodFill_target_eq_fill_noop (w h sx sy : Int) (c : String) (g : Pixels) :
    floodFill w h sx sy c c g = g := by
  unfold floodFill
  simp

lemma sweepFiles_no_failures (now maxAge : Int) (files : List CacheFile)
    (hok : ∀ f ∈ files, f.statFails = false ∧ f.unlinkFails = false) :
    sweepFiles now maxAge files =
      ((files.filter (isStale now maxAge)).length,
       (files.filter (isStale now maxAge)).map CacheFile.fname) := by
  induction files with
  | nil => rfl
  | cons f rest ih =>
    obtain ⟨hstat, hunlink⟩ := hok f (List.mem_cons_self f rest)
    have ihr := ih (fun g hg => hok g (List.mem_cons_of_mem f hg))
    by_cases hage : now - f.mtimeMs > maxAge
    · simp only [sweepFiles, hstat, Bool.false_eq_true, if_false, hage, if_true, hunlink,
        ihr]
      simp [isStale, hage]
    · simp only [sweepFiles, hstat, Bool.false_eq_true, if_false, hage, ihr]
      simp [isStale, hage]

/-- Claim C8: with no per-file failures, a sweep with retention 7 days deletes
exactly the files modified strictly more than 7 days before now and
counts each deletion; on a missing images directory it deletes nothing
and returns zero without raising (the model is a total function). -/
theorem cleanOldCache_retention (files : List CacheFile) (now : Int)
    (hok : ∀ f ∈ files, f.statFails = false ∧ f.unlinkFails = false) :
    cleanOldCache true files now 7 =
      ((files.filter (isStale now (7 * 24 * 60 * 60 * 1000))).length,
       (files.filter (isStale now (7 * 24 * 60 * 60 * 1000))).map CacheFile.fname) ∧
    cleanOldCache false files now 7 = (0, []) := by
  constructor
  · unfold cleanOldCache
    simp only [if_true]
    exact sweepFiles_no_failures now (7 * 24 * 60 * 60 * 1000) files hok
  · rfl

/-- Witness for C8: with now at day 9, a file modified at day 1 (8 days
old) is deleted and counted, a file modified at day 3 (6 days old) is
retained, and a missing directory yields zero deletions. -/
theorem cleanOldCache_retention_witness :
    cleanOldCache true
      [⟨"eight.png", 86400000, false, false⟩, ⟨"six.png", 259200000, false, false⟩]
      777600000 7 = (1, ["eight.png"]) ∧
    cleanOldCache false
      [⟨"eight.png", 86400000, false, false⟩, ⟨"six.png", 259200000, false, false⟩]
      777600000 7 = (0, []) := by
  have h := cleanOldCache_retention
    [⟨"eight.png", 86400000, false, false⟩, ⟨"six.png", 259200000, false, false⟩]
    777600000 (by decide)
  exact ⟨h.1.trans (by decide), h.2⟩

/-- Counterexample to C9 as stated: the first file's stat fails and the
second file is 9 days old, yet the sweep deletes and counts nothing --
the failure aborts the loop instead of being skipped per file. -/
theorem sweep_failure_not_skipped :
    cleanOldCache true
      [⟨"bad.png", 0, true, false⟩, ⟨"stale.png", 0, false, false⟩]
      777600000 7 = (0, []) := by
  decide

lemma sweepFiles_aborts (now maxAge : Int) (pre post : List CacheFile) (f : CacheFile)
    (hpre : ∀ g ∈ pre, g.statFails = false ∧ g.unlinkFails = false)
    (hf : f.statFails = true ∨ (now - f.mtimeMs > maxAge ∧ f.unlinkFails = true)) :
    sweepFiles now maxAge (pre ++ f :: post) =
      ((pre.filter (isStale now maxAge)).length,
       (pre.filter (isStale now maxAge)).map CacheFile.fname) := by
  induction pre with
  | nil =>
    simp only [List.nil_append, List.filter_nil, List.length_nil, List.map_nil]
    rcases hf with hstat | ⟨hage, hunlink⟩
    · simp [sweepFiles, hstat]
    · have hstat2 : f.statFails = true ∨ f.statFails = false := by
        cases f.statFails <;> simp
      rcases hstat2 with h2 | h2
      · simp [sweepFiles, h2]
      · simp [sweepFiles, h2, hage, hunlink]
  | cons g rest ih =>
    obtain ⟨hstat, hunlink⟩ := hpre g (List.mem_cons_self g rest)
    have ihr := ih (fun x hx => hpre x (List.mem_cons_of_mem g hx))
    by_cases hage : now - g.mtimeMs > maxAge
    · simp only [List.cons_append, sweepFiles, hstat, Bool.false_eq_true, if_false, hage,
        if_true, hunlink, ihr]
      simp [isStale, hage, ihr]
    · simp only [List.cons_append, sweepFiles, hstat, Bool.false_eq_true, if_false, hage, ihr]
      simp [isStale, hage, ihr]

/-- Claim C9 (amended): a stat or unlink failure is caught by the handler around
the whole loop, so the sweep stops there without raising: files listed
before the failing file are still swept normally (deleted and counted if
stale), while the failing file and every file after it are skipped. -/
theorem sweep_aborts_at_first_failure (pre post : List CacheFile) (f : CacheFile)
    (now : Int)
    (hpre : ∀ g ∈ pre, g.statFails = false ∧ g.unlinkFails = false)
    (hf : f.statFails = true ∨
      (now - f.mtimeMs > 7 * 24 * 60 * 60 * 1000 ∧ f.unlinkFails = true)) :
    cleanOldCache true (pre ++ f :: post) now 7 =
      ((pre.filter (isStale now (7 * 24 * 60 * 60 * 1000))).length,
       (pre.filter (isStale now (7 * 24 * 60 * 60 * 1000))).map CacheFile.fname) := by
  unfold cleanOldCache
  simp only [if_true]
  exact sweepFiles_aborts now (7 * 24 * 60 * 60 * 1000) pre post f hpre hf

/-- Witness for the amended C9: a stale good file before the failing one
is deleted and counted; the stale file after it is skipped. -/
theorem sweep_aborts_at_first_failure_witness :
    cleanOldCache true
      [⟨"good.png", 0, false, false⟩, ⟨"bad.png", 0, true, false⟩,
       ⟨"late.png", 0, false, false⟩] 777600000 7 = (1, ["good.png"]) := by
  have h := sweep_aborts_at_first_failure
    [⟨"good.png", 0, false, false⟩] [⟨"late.png", 0, false, false⟩]
    ⟨"bad.png", 0, true, false⟩ 777600000 (by decide) (Or.inl rfl)
  exact h.trans (by decide)

lemma clampField_mem (lo hi dflt : Int) (v : Option ℚ) (h1 : lo ≤ hi)
    (h2 : lo ≤ dflt) (h3 : dflt ≤ hi) :
    lo ≤ clampField lo hi dflt v ∧ clampField lo hi dflt v ≤ hi := by
  cases v with
  | none => exact ⟨h2, h3⟩
  | some q => exact ⟨le_max_left _ _, max_le h1 (min_le_left _ _)⟩

/-- Claim C10: parseWindowSpec is total and always in range.  Whatever the
environment variable holds -- absent, text JSON.parse rejects, or any
parsed value -- the result is a WindowSpec whose numeric fields lie in
their declared ranges; absent or unparsable input (and a parsed null,
whose property access throws into the same catch) yields the text spec
with one line; a numeric field present on a recognized object is floored
and clamped into range, a missing one takes its default. -/
theorem parseWindowSpec_safe :
    (∀ raw, windowSpecInRange (parseWindowSpec raw)) ∧
    parseWindowSpec none = .text 1 ∧
    parseWindowSpec (some none) = .text 1 ∧
    parseWindowSpec (some (some .jnull)) = .text 1 ∧
    (∀ q : ℚ, parseWindowSpec
        (some (some (.jobj [("kind", .jstr "pixelart"), ("gridWidth", .jnum q)]))) =
      .pixelart (max 4 (min 128 q.floor)) 16 20) ∧
    (∀ q : ℚ, parseWindowSpec
        (some (some (.jobj [("kind", .jstr "image"), ("width", .jnum q)]))) =
      .image (max 32 (min 4096 q.floor)) 512) ∧
    (∀ q : ℚ, parseWindowSpec (some (some (.jobj [("lines", .jnum q)]))) =
      .text (max 1 (min 20 q.floor))) := by
  refine ⟨?_, rfl, rfl, rfl, fun q => rfl, fun q => rfl, fun q => rfl⟩
  intro raw
  match raw with
  | none => exact ⟨le_refl 1, by norm_num⟩
  | some none => exact ⟨le_refl 1, by norm_num⟩
  | some (some v) =>
    cases v with
    | jnull => exact ⟨le_refl 1, by norm_num⟩
    | jbool b =>
      simp only [parseWindowSpec, JVal.prop, optIsStr, numProp, clampField]
      exact ⟨le_refl 1, by norm_num⟩
    | jnum q =>
      simp only [parseWindowSpec, JVal.prop, optIsStr, numProp, clampField]
      exact ⟨le_refl 1, by norm_num⟩
    | jstr s =>
      simp only [parseWindowSpec, JVal.prop, optIsStr, numProp, clampField]
      exact ⟨le_refl 1, by norm_num⟩
    | jarr xs =>
      simp only [parseWindowSpec, JVal.prop, optIsStr, numProp, clampField]
      exact ⟨le_refl 1, by norm_num⟩
    | jobj fields =>
      simp only [parseWindowSpec]
      split_ifs
      · have a := clampField_mem 4 128 16 (numProp (.jobj fields) "gridWidth")
          (by norm_num) (by norm_num) (by norm_num)
        have b := clampField_mem 4 128 16 (numProp (.jobj fields) "gridHeight")
          (by norm_num) (by norm_num) (by norm_num)
        have c := clampField_mem 4 64 20 (numProp (.jobj fields) "cellSize")
          (by norm_num) (by norm_num) (by norm_num)
        exact ⟨a.1, a.2, b.1, b.2, c.1, c.2⟩
      · have a := clampField_mem 32 4096 512 (numProp (.jobj fields) "width")
          (by norm_num) (by norm_num) (by norm_num)
        have b := clampField_mem 32 4096 512 (numProp (.jobj fields) "height")
          (by norm_num) (by norm_num) (by norm_num)
        exact ⟨a.1, a.2, b.1, b.2⟩
      · have a := clampField_mem 1 20 1 (numProp (.jobj fields) "lines")
          (by norm_num) (by norm_num) (by norm_num)
        exact ⟨a.1, a.2⟩

lemma string_append_ne_of_head {a b : String} {c d : Char} {as bs : List Char}
    (ha : a.data = c :: as) (hb : b.data = d :: bs) (hcd : c ≠ d) (x y : String) :
    a ++ x ≠ b ++ y := by
  intro h
  have h2 := congrArg String.data h
  rw [String.data_append, String.data_append, ha, hb] at h2
  simp only [List.cons_append, List.cons.injEq] at h2
  exact hcd h2.1

lemma string_append_ne_lit {a b : String} {c d : Char} {as bs : List Char}
    (ha : a.data = c :: as) (hb : b.data = d :: bs) (hcd : c ≠ d) (x : String) :
    a ++ x ≠ b := by
  intro h
  have h2 := congrArg String.data h
  rw [String.data_append, ha, hb] at h2
  simp only [List.cons_append, List.cons.injEq] at h2
  exact hcd h2.1

lemma optIsStr_unique {v : Option JVal} {s t : String} (h : optIsStr v s = true)
    (hne : s ≠ t) : optIsStr v t = false := by
  cases v with
  | none => simp [optIsStr] at h
  | some w =>
    cases w with
    | jstr u =>
      simp only [optIsStr, JVal.isStr, decide_eq_true_eq] at h
      subst h
      simp only [optIsStr, JVal.isStr]
      exact decide_eq_false hne
    | jnull => simp [optIsStr, JVal.isStr] at h
    | jbool b => simp [optIsStr, JVal.isStr] at h
    | jnum q => simp [optIsStr, JVal.isStr] at h
    | jarr xs => simp [optIsStr, JVal.isStr] at h
    | jobj fs => simp [optIsStr, JVal.isStr] at h

/-- Claim C1: classification of a successfully parsed reply.  Action submit
resolves the promise with the embedded result; action cancel rejects
with the distinguished InputCancelledError (a different error class
from InputFailedError, so callers can special-case it); action error
rejects with an InputFailedError carrying the subprocess-supplied
message; any other or missing action rejects with an InputFailedError
naming the action.  A window closed without submitting emits the cancel
envelope, so the caller receives the cancelled error, never a generic
failure. -/
theorem launch_response_classification (parsed : JVal) :
    (optIsStr (parsed.prop "action") "submit" = true →
      handleParsedResponse parsed = .resolved (parsed.prop "result")) ∧
    (optIsStr (parsed.prop "action") "cancel" = true →
      handleParsedResponse parsed = .rejected .inputCancelled) ∧
    (∀ m : String, parsed.prop "action" = some (.jstr "error") →
      parsed.prop "message" = some (.jstr m) →
      handleParsedResponse parsed = .rejected (.inputFailed m)) ∧
    (optIsStr (parsed.prop "action") "submit" = false →
      optIsStr (parsed.prop "action") "cancel" = false →
      optIsStr (parsed.prop "action") "error" = false →
      handleParsedResponse parsed =
        .rejected (.inputFailed ("Unknown action: " ++ jsOptDisplay (parsed.prop "action")))) ∧
    (∀ m : String, PromptErr.inputCancelled ≠ PromptErr.inputFailed m) ∧
    handleParsedResponse (encodePayload (payloadOf .windowClosed)) =
      .rejected .inputCancelled := by
  refine ⟨?_, ?_, ?_, ?_, fun m h => PromptErr.noConfusion h, rfl⟩
  · intro h
    unfold handleParsedResponse
    simp [h]
  · intro h
    have h1 : optIsStr (parsed.prop "action") "submit" = false :=
      optIsStr_unique h (by decide)
    unfold handleParsedResponse
    simp [h, h1]
  · intro m ha hm
    have h1 : optIsStr (parsed.prop "action") "submit" = false := by
      simp [ha, optIsStr, JVal.isStr]
    have h2 : optIsStr (parsed.prop "action") "cancel" = false := by
      simp [ha, optIsStr, JVal.isStr]
    have h3 : optIsStr (parsed.prop "action") "error" = true := by
      simp [ha, optIsStr, JVal.isStr]
    unfold handleParsedResponse
    simp [h1, h2, h3, hm, jsOptDisplay, jsDisplay]
  · intro h1 h2 h3
    unfold handleParsedResponse
    simp [h1, h2, h3]

/-- Witness for C1 at the four concrete envelope shapes. -/
theorem launch_response_classification_witness :
    handleParsedResponse (.jobj [("action", .jstr "submit"), ("result", .jstr "ok")]) =
      .resolved (some (.jstr "ok")) ∧
    handleParsedResponse (.jobj [("action", .jstr "cancel")]) =
      .rejected .inputCancelled ∧
    handleParsedResponse (.jobj [("action", .jstr "error"), ("message", .jstr "boom")]) =
      .rejected (.inputFailed "boom") ∧
    handleParsedResponse (.jobj [("action", .jstr "frobnicate")]) =
      .rejected (.inputFailed ("Unknown action: " ++ "frobnicate")) := by
  refine ⟨(launch_response_classification _).1 rfl,
          (launch_response_classification _).2.1 rfl,
          (launch_response_classification _).2.2.1 "boom" rfl rfl, ?_⟩
  have h := (launch_response_classification
    (.jobj [("action", .jstr "frobnicate")])).2.2.2.1 rfl rfl rfl
  exact h.trans (by simp [JVal.prop, lookupField, jsOptDisplay, jsDisplay])

/-- A JSON.parse model that rejects its input, standing for parse calls
on unparsable text. -/
def jsonParseStub : String → Option JVal := fun _ => none

/-- Counterexample to C2 as stated: the code has no NonZeroExitError,
EmptyReplyError or MalformedReplyError classes -- the nonzero-exit,
empty-reply and malformed-reply failures all reject with the same error
class InputFailedError, so the three kinds are not distinct. -/
theorem onChildExit_single_error_class :
    (onChildExit jsonParseStub (some 1) "").errClass = some "InputFailedError" ∧
    (onChildExit jsonParseStub (some 0) "").errClass = some "InputFailedError" ∧
    (onChildExit jsonParseStub (some 0) "junk").errClass = some "InputFailedError" := by
  refine ⟨rfl, rfl, rfl⟩

/-- Claim C2 (amended): the three launch failure modes all reject with an
InputFailedError, distinguished only by message: a nonzero (or null)
exit code yields the exit-code message, exit code 0 with an empty
(trimmed) reply buffer yields the no-response message, and exit code 0
with nonempty unparsable text yields the invalid-JSON message.  The
three messages are pairwise distinct, and the exit-code check runs
before any parsing, so a subprocess exiting 1 with no output yields the
exit-code failure, not a parse failure. -/
theorem onChildExit_failure_modes (parse : String → Option JVal) (code : Option Int)
    (stdout : String) :
    (code ≠ some 0 →
      onChildExit parse code stdout =
        .rejected (.inputFailed ("Electron process exited with code " ++ codeDisplay code))) ∧
    (code = some 0 → replyBlank stdout = true →
      onChildExit parse code stdout =
        .rejected (.inputFailed "No response from Electron process")) ∧
    (code = some 0 → replyBlank stdout = false → parse stdout = none →
      onChildExit parse code stdout =
        .rejected (.inputFailed ("Invalid JSON response: " ++ stdout))) ∧
    "Electron process exited with code " ++ codeDisplay code ≠
      "No response from Electron process" ∧
    "Electron process exited with code " ++ codeDisplay code ≠
      "Invalid JSON response: " ++ stdout ∧
    "No response from Electron process" ≠ "Invalid JSON response: " ++ stdout ∧
    onChildExit parse (some 1) "" =
      .rejected (.inputFailed "Electron process exited with code 1") := by
  refine ⟨?_, ?_, ?_, ?_, ?_, ?_, rfl⟩
  · intro h
    unfold onChildExit
    rw [if_pos h]
  · intro h1 h2
    unfold onChildExit
    rw [if_neg (by simp [h1]), if_pos h2]
  · intro h1 h2 h3
    unfold onChildExit
    rw [if_neg (by simp [h1]), if_neg (by simp [h2]), h3]
  · exact string_append_ne_lit rfl rfl (by decide) _
  · exact string_append_ne_of_head rfl rfl (by decide) _ _
  · exact fun h => string_append_ne_lit rfl rfl (by decide) stdout h.symm

/-- Witness for the amended C2 at the three concrete failure inputs. -/
theorem onChildExit_failure_modes_witness :
    onChildExit jsonParseStub (some 1) "" =
      .rejected (.inputFailed "Electron process exited with code 1") ∧
    onChildExit jsonParseStub (some 0) "" =
      .rejected (.inputFailed "No response from Electron process") ∧
    onChildExit jsonParseStub (some 0) "junk" =
      .rejected (.inputFailed ("Invalid JSON response: " ++ "junk")) := by
  refine ⟨(onChildExit_failure_modes jsonParseStub (some 1) "").1 (by decide),
          (onChildExit_failure_modes jsonParseStub (some 0) "").2.1 rfl rfl,
          (onChildExit_failure_modes jsonParseStub (some 0) "junk").2.2.1 rfl rfl rfl⟩

lemma parseIntField_ok_range {v : Option ℚ} {lo hi dflt m : Int} {e : ValidationError}
    (hd1 : lo ≤ dflt) (hd2 : dflt ≤ hi)
    (h : parseIntField v lo hi dflt e = .ok m) : lo ≤ m ∧ m ≤ hi := by
  cases v with
  | none =>
    simp only [parseIntField, Except.ok.injEq] at h
    subst h
    exact ⟨hd1, hd2⟩
  | some q =>
    simp only [parseIntField] at h
    by_cases h1 : q.den ≠ 1
    · simp [h1] at h
    · by_cases h2 : q < (lo : ℚ)
      · simp [h1, h2] at h
      · by_cases h3 : (hi : ℚ) < q
        · simp [h1, h2, h3] at h
        · simp only [h1, h2, h3, if_false, Except.ok.injEq] at h
          subst h
          rw [Decidable.not_not] at h1
          have hq : ((q.num : ℚ)) = q := by
            rw [← Rat.den_eq_one_iff]
            exact h1
          constructor
          · have := not_lt.mp h2
            rw [← hq] at this
            exact_mod_cast this
          · have := not_lt.mp h3
            rw [← hq] at this
            exact_mod_cast this

lemma parseIntField_intCast (m lo hi dflt : Int) (e : ValidationError)
    (h1 : lo ≤ m) (h2 : m ≤ hi) :
    parseIntField (some (m : ℚ)) lo hi dflt e = .ok m := by
  simp only [parseIntField, Rat.den_intCast, ne_eq, not_true_eq_false, if_false]
  rw [if_neg (by exact_mod_cast not_lt.mpr h1), if_neg (by exact_mod_cast not_lt.mpr h2),
    Rat.num_intCast]

lemma textParse_ok_range {r : RawInput} {t : TextInputSpec}
    (h : TextInputSpecSchema.parse r = .ok t) : 1 ≤ t.lines ∧ t.lines ≤ 20 := by
  unfold TextInputSpecSchema.parse at h
  by_cases h1 : r.kind ≠ some "text"
  · rw [if_pos h1] at h
    exact absurd h (by simp)
  · rw [if_neg h1] at h
    by_cases h2 : ¬ literalOK r.ui "text"
    · rw [if_pos h2] at h
      exact absurd h (by simp)
    · rw [if_neg h2] at h
      cases hp : parseIntField r.lines 1 20 1 ⟨"lines"⟩ with
      | error e =>
        rw [hp] at h
        exact absurd h (by simp)
      | ok m =>
        rw [hp] at h
        simp only [Except.ok.injEq] at h
        subst h
        exact parseIntField_ok_range (by norm_num) (by norm_num) hp

lemma imageParse_ok_range {r : RawInput} {t : ImageInputSpec}
    (h : ImageInputSpecSchema.parse r = .ok t) :
    32 ≤ t.width ∧ t.width ≤ 4096 ∧ 32 ≤ t.height ∧ t.height ≤ 4096 := by
  unfold ImageInputSpecSchema.parse at h
  by_cases h1 : r.kind ≠ some "image"
  · rw [if_pos h1] at h
    exact absurd h (by simp)
  · rw [if_neg h1] at h
    by_cases h2 : ¬ literalOK r.ui "image"
    · rw [if_pos h2] at h
      exact absurd h (by simp)
    · rw [if_neg h2] at h
      cases hw : parseIntField r.width 32 4096 512 ⟨"width"⟩ with
      | error e =>
        rw [hw] at h
        exact absurd h (by simp)
      | ok w =>
        rw [hw] at h
        cases hh : parseIntField r.height 32 4096 512 ⟨"height"⟩ with
        | error e =>
          rw [hh] at h
          exact absurd h (by simp)
        | ok hgt =>
          rw [hh] at h
          simp only [Except.ok.injEq] at h
          subst h
          obtain ⟨a1, a2⟩ := parseIntField_ok_range (by norm_num) (by norm_num) hw
          obtain ⟨b1, b2⟩ := parseIntField_ok_range (by norm_num) (by norm_num) hh
          exact ⟨a1, a2, b1, b2⟩

lemma pixelartParse_ok_range {r : RawInput} {t : PixelArtInputSpec}
    (h : PixelArtInputSpecSchema.parse r = .ok t) :
    4 ≤ t.gridWidth ∧ t.gridWidth ≤ 128 ∧ 4 ≤ t.gridHeight ∧ t.gridHeight ≤ 128 ∧
    4 ≤ t.cellSize ∧ t.cellSize ≤ 64 := by
  unfold PixelArtInputSpecSchema.parse at h
  by_cases h1 : r.kind ≠ some "pixelart"
  · rw [if_pos h1] at h
    exact absurd h (by simp)
  · rw [if_neg h1] at h
    by_cases h2 : ¬ literalOK r.ui "pixelart"
    · rw [if_pos h2] at h
      exact absurd h (by simp)
    · rw [if_neg h2] at h
      cases hw : parseIntField r.gridWidth 4 128 16 ⟨"gridWidth"⟩ with
      | error e =>
        rw [hw] at h
        exact absurd h (by simp)
      | ok w =>
        rw [hw] at h
        cases hh : parseIntField r.gridHeight 4 128 16 ⟨"gridHeight"⟩ with
        | error e =>
          rw [hh] at h
          exact absurd h (by simp)
        | ok hgt =>
          rw [hh] at h
          cases hc : parseIntField r.cellSize 4 64 20 ⟨"cellSize"⟩ with
          | error e =>
            rw [hc] at h
            exact absurd h (by simp)
          | ok c =>
            rw [hc] at h
            simp only [Except.ok.injEq] at h
            subst h
            obtain ⟨a1, a2⟩ := parseIntField_ok_range (by norm_num) (by norm_num) hw
            obtain ⟨b1, b2⟩ := parseIntField_ok_range (by norm_num) (by norm_num) hh
            obtain ⟨c1, c2⟩ := parseIntField_ok_range (by norm_num) (by norm_num) hc
            exact ⟨a1, a2, b1, b2, c1, c2⟩

lemma textParse_roundtrip (t : TextInputSpec)
    (hr : 1 ≤ t.lines ∧ t.lines ≤ 20) :
    TextInputSpecSchema.parse (specToRaw (.text t)) = .ok t := by
  unfold TextInputSpecSchema.parse specToRaw
  rw [if_neg (by simp), if_neg (by simp [literalOK]),
    parseIntField_intCast t.lines 1 20 1 ⟨"lines"⟩ hr.1 hr.2]
  rfl

lemma imageParse_roundtrip (t : ImageInputSpec)
    (hr : 32 ≤ t.width ∧ t.width ≤ 4096 ∧ 32 ≤ t.height ∧ t.height ≤ 4096) :
    ImageInputSpecSchema.parse (specToRaw (.image t)) = .ok t := by
  unfold ImageInputSpecSchema.parse specToRaw
  rw [if_neg (by simp), if_neg (by simp [literalOK]),
    parseIntField_intCast t.width 32 4096 512 ⟨"width"⟩ hr.1 hr.2.1,
    parseIntField_intCast t.height 32 4096 512 ⟨"height"⟩ hr.2.2.1 hr.2.2.2]
  rfl

lemma pixelartParse_roundtrip (t : PixelArtInputSpec)
    (hr : 4 ≤ t.gridWidth ∧ t.gridWidth ≤ 128 ∧ 4 ≤ t.gridHeight ∧ t.gridHeight ≤ 128 ∧
      4 ≤ t.cellSize ∧ t.cellSize ≤ 64) :
    PixelArtInputSpecSchema.parse (specToRaw (.pixelart t)) = .ok t := by
  unfold PixelArtInputSpecSchema.parse specToRaw
  rw [if_neg (by simp), if_neg (by simp [literalOK]),
    parseIntField_intCast t.gridWidth 4 128 16 ⟨"gridWidth"⟩ hr.1 hr.2.1,
    parseIntField_intCast t.gridHeight 4 128 16 ⟨"gridHeight"⟩ hr.2.2.1 hr.2.2.2.1,
    parseIntField_intCast t.cellSize 4 64 20 ⟨"cellSize"⟩ hr.2.2.2.2.1 hr.2.2.2.2.2]
  rfl

lemma validate_specToRaw (s : InputSpec) (hr : specFieldsInRange s) :
    validateInputSpec (specToRaw s) = .ok s := by
  cases s with
  | text t =>
    unfold validateInputSpec InputSpecSchema.parse
    rw [if_pos (by simp [specToRaw]), textParse_roundtrip t hr]
    rfl
  | image t =>
    unfold validateInputSpec InputSpecSchema.parse
    rw [if_neg (by simp [specToRaw]), if_pos (by simp [specToRaw]),
      imageParse_roundtrip t hr]
    rfl
  | pixelart t =>
    unfold validateInputSpec InputSpecSchema.parse
    rw [if_neg (by simp [specToRaw]), if_neg (by simp [specToRaw]),
      if_pos (by simp [specToRaw]), pixelartParse_roundtrip t hr]
    rfl

/-- Claim C5: every successfully validated InputSpec has its numeric fields
within the declared ranges -- text lines in [1, 20], image width and
height in [32, 4096], pixelart grid dimensions in [4, 128] and cell size
in [4, 64].  Out-of-range values are rejected at the schema boundary
with a ValidationError naming the field, never passed through. -/
theorem validateInputSpec_fields_in_range (r : RawInput) (s : InputSpec)
    (h : validateInputSpec r = .ok s) : specFieldsInRange s := by
  unfold validateInputSpec InputSpecSchema.parse at h
  by_cases h1 : r.kind = some "text"
  · rw [if_pos h1] at h
    cases hp : TextInputSpecSchema.parse r with
    | error e =>
      rw [hp] at h
      exact absurd h (by simp [Except.map])
    | ok t =>
      rw [hp] at h
      simp only [Except.map, Except.ok.injEq] at h
      subst h
      exact textParse_ok_range hp
  · rw [if_neg h1] at h
    by_cases h2 : r.kind = some "image"
    · rw [if_pos h2] at h
      cases hp : ImageInputSpecSchema.parse r with
      | error e =>
        rw [hp] at h
        exact absurd h (by simp [Except.map])
      | ok t =>
        rw [hp] at h
        simp only [Except.map, Except.ok.injEq] at h
        subst h
        exact imageParse_ok_range hp
    · rw [if_neg h2] at h
      by_cases h3 : r.kind = some "pixelart"
      · rw [if_pos h3] at h
        cases hp : PixelArtInputSpecSchema.parse r with
        | error e =>
          rw [hp] at h
          exact absurd h (by simp [Except.map])
        | ok t =>
          rw [hp] at h
          simp only [Except.map, Except.ok.injEq] at h
          subst h
          exact pixelartParse_ok_range hp
      · rw [if_neg h3] at h
        exact absurd h (by simp)

/-- Witness for C5: the fully-defaulted pixelart spec parses and its
fields are in range. -/
theorem validateInputSpec_fields_in_range_witness :
    specFieldsInRange
      (.pixelart
        ⟨"Create your pixel art:", "Send", 16, 16, 20, defaultPalette, "#FFFFFF",
          "image/png"⟩) :=
  validateInputSpec_fields_in_range (kindOnlyRaw "pixelart") _ rfl

/-- Claim C6: normalization is idempotent.  Feeding the object denoted by a
successfully validated spec back through validateInputSpec returns the
same spec unchanged; in particular re-validating the output of
normalizeSpec for any kind yields the same spec. -/
theorem validateInputSpec_idempotent :
    (∀ (r : RawInput) (s : InputSpec),
      validateInputSpec r = .ok s → validateInputSpec (specToRaw s) = .ok s) ∧
    (∀ (k : Option InputKind) (s : InputSpec),
      normalizeSpec k = .ok s → validateInputSpec (specToRaw s) = .ok s) := by
  have main : ∀ (r : RawInput) (s : InputSpec),
      validateInputSpec r = .ok s → validateInputSpec (specToRaw s) = .ok s := by
    intro r s h
    apply validate_specToRaw
    unfold validateInputSpec InputSpecSchema.parse at h
    by_cases h1 : r.kind = some "text"
    · rw [if_pos h1] at h
      cases hp : TextInputSpecSchema.parse r with
      | error e =>
        rw [hp] at h
        exact absurd h (by simp [Except.map])
      | ok t =>
        rw [hp] at h
        simp only [Except.map, Except.ok.injEq] at h
        subst h
        exact textParse_ok_range hp
    · rw [if_neg h1] at h
      by_cases h2 : r.kind = some "image"
      · rw [if_pos h2] at h
        cases hp : ImageInputSpecSchema.parse r with
        | error e =>
          rw [hp] at h
          exact absurd h (by simp [Except.map])
        | ok t =>
          rw [hp] at h
          simp only [Except.map, Except.ok.injEq] at h
          subst h
          exact imageParse_ok_range hp
      · rw [if_neg h2] at h
        by_cases h3 : r.kind = some "pixelart"
        · rw [if_pos h3] at h
          cases hp : PixelArtInputSpecSchema.parse r with
          | error e =>
            rw [hp] at h
            exact absurd h (by simp [Except.map])
          | ok t =>
            rw [hp] at h
            simp only [Except.map, Except.ok.injEq] at h
            subst h
            exact pixelartParse_ok_range hp
        · rw [if_neg h3] at h
          exact absurd h (by simp)
  refine ⟨main, fun k s h => ?_⟩
  have hval : validateInputSpec (kindOnlyRaw (match k.getD .text with
      | .text => "text" | .image => "image" | .pixelart => "pixelart")) = .ok s := by
    match k with
    | none => exact h
    | some .text => exact h
    | some .image =>
      unfold validateInputSpec InputSpecSchema.parse
      rw [if_neg (by simp [kindOnlyRaw]), if_pos (by simp [kindOnlyRaw])]
      exact h
    | some .pixelart =>
      unfold validateInputSpec InputSpecSchema.parse
      rw [if_neg (by simp [kindOnlyRaw]), if_neg (by simp [kindOnlyRaw]),
        if_pos (by simp [kindOnlyRaw])]
      exact h
  exact main _ s hval

/-- Witness for C6: re-validating the fully-defaulted text spec produced
by the text normalization yields the same spec. -/
theorem validateInputSpec_idempotent_witness :
    validateInputSpec (specToRaw
      (.text ⟨"Enter your input:", "Send", "Type something here...", 1, .fmtText⟩)) =
    .ok (.text ⟨"Enter your input:", "Send", "Type something here...", 1, .fmtText⟩) :=
  validateInputSpec_idempotent.2 (some .text) _ rfl

/-- Loop invariant of the floodFill worklist, relating the current
grid g, worklist and visited set to the original grid: recolored cells
are exactly described (fill color, originally target, in bounds,
visited, reachable), visited eligible cells are already recolored, every
eligible worklist cell is reachable, neighbours of recolored cells are
scheduled or done, and the start cell is scheduled or done. -/
structure FFInv (w h : Int) (orig : Pixels) (t f : String) (s : Cell)
    (stack : List Cell) (visited : Finset Cell) (g : Pixels) : Prop where
  htf : t ≠ f
  grid_char : ∀ x y : Int, g y x = orig y x ∨
    (g y x = f ∧ orig y x = t ∧ inb w h x y ∧ (x, y) ∈ visited ∧
      Reach w h orig t s (x, y))
  visited_filled : ∀ p ∈ visited, inb w h p.1 p.2 → orig p.2 p.1 = t → g p.2 p.1 = f
  stack_ok : ∀ p ∈ stack, inb w h p.1 p.2 → orig p.2 p.1 = t → Reach w h orig t s p
  closure : ∀ x y : Int, g y x ≠ orig y x → ∀ q ∈ nbrs (x, y), q ∈ visited ∨ q ∈ stack
  start_in : s ∈ visited ∨ s ∈ stack

lemma ffInv_pop_visited {w h : Int} {orig : Pixels} {t f : String} {s : Cell}
    {p : Cell} {rest : List Cell} {visited : Finset Cell} {g : Pixels}
    (hmem : p ∈ visited)
    (inv : FFInv w h orig t f s (p :: rest) visited g) :
    FFInv w h orig t f s rest visited g := by
  obtain ⟨htf, gc, vf, so, cl, si⟩ := inv
  refine ⟨htf, gc, vf, fun q hq => so q (List.mem_cons_of_mem _ hq), ?_, ?_⟩
  · intro x' y' hdiff q hq
    rcases cl x' y' hdiff q hq with hv | hs
    · exact Or.inl hv
    · rcases List.mem_cons.mp hs with he | hr
      · exact Or.inl (he ▸ hmem)
      · exact Or.inr hr
  · rcases si with hv | hs
    · exact Or.inl hv
    · rcases List.mem_cons.mp hs with he | hr
      · exact Or.inl (he ▸ hmem)
      · exact Or.inr hr

lemma ffInv_pop_discard {w h : Int} {orig : Pixels} {t f : String} {s : Cell}
    {p : Cell} {rest : List Cell} {visited : Finset Cell} {g : Pixels}
    (hcond : ¬ inb w h p.1 p.2 ∨ g p.2 p.1 ≠ t)
    (inv : FFInv w h orig t f s (p :: rest) visited g) :
    FFInv w h orig t f s rest (insert p visited) g := by
  obtain ⟨htf, gc, vf, so, cl, si⟩ := inv
  refine ⟨htf, ?_, ?_, fun q hq => so q (List.mem_cons_of_mem _ hq), ?_, ?_⟩
  · intro x' y'
    rcases gc x' y' with hg | ⟨h1, h2, h3, h4, h5⟩
    · exact Or.inl hg
    · exact Or.inr ⟨h1, h2, h3, Finset.mem_insert_of_mem h4, h5⟩
  · intro q hq hqin hqor
    rcases Finset.mem_insert.mp hq with he | hv
    · subst he
      rcases hcond with hoob | hcol
      · exact absurd hqin hoob
      · rcases gc q.1 q.2 with hg | ⟨h1, _, _, _, _⟩
        · exact absurd (hg.trans hqor) hcol
        · exact h1
    · exact vf q hv hqin hqor
  · intro x' y' hdiff q hq
    rcases cl x' y' hdiff q hq with hv | hs
    · exact Or.inl (Finset.mem_insert_of_mem hv)
    · rcases List.mem_cons.mp hs with he | hr
      · exact Or.inl (he ▸ Finset.mem_insert_self _ _)
      · exact Or.inr hr
  · rcases si with hv | hs
    · exact Or.inl (Finset.mem_insert_of_mem hv)
    · rcases List.mem_cons.mp hs with he | hr
      · exact Or.inl (he ▸ Finset.mem_insert_self _ _)
      · exact Or.inr hr

lemma ffInv_push {w h : Int} {orig : Pixels} {t f : String} {s : Cell}
    {x y : Int} {rest : List Cell} {visited : Finset Cell} {g : Pixels}
    (hnv : (x, y) ∉ visited) (hin : inb w h x y) (hcol : g y x = t)
    (inv : FFInv w h orig t f s ((x, y) :: rest) visited g) :
    FFInv w h orig t f s
      ((x + 1, y) :: (x - 1, y) :: (x, y + 1) :: (x, y - 1) :: rest)
      (insert (x, y) visited) (setPix g x y f) := by
  obtain ⟨htf, gc, vf, so, cl, si⟩ := inv
  have horig : orig y x = t := by
    rcases gc x y with hg | ⟨_, hot, _, _, _⟩
    · rw [← hg]; exact hcol
    · exact hot
  have hreach : Reach w h orig t s (x, y) :=
    so (x, y) (List.mem_cons_self _ _) hin horig
  refine ⟨htf, ?_, ?_, ?_, ?_, ?_⟩
  · intro x' y'
    by_cases hxy : y' = y ∧ x' = x
    · obtain ⟨hy, hx⟩ := hxy
      subst hy; subst hx
      exact Or.inr ⟨by simp [setPix], horig, hin, Finset.mem_insert_self _ _, hreach⟩
    · have hg' : setPix g x y f y' x' = g y' x' := by simp [setPix, hxy]
      rw [hg']
      rcases gc x' y' with hg | ⟨h1, h2, h3, h4, h5⟩
      · exact Or.inl hg
      · exact Or.inr ⟨h1, h2, h3, Finset.mem_insert_of_mem h4, h5⟩
  · intro q hq hqin hqor
    rcases Finset.mem_insert.mp hq with he | hv
    · subst he
      simp [setPix]
    · have hqne : q ≠ (x, y) := fun he => hnv (he ▸ hv)
      have hg' : setPix g x y f q.2 q.1 = g q.2 q.1 := by
        simp only [setPix]
        rw [if_neg]
        intro hc
        exact hqne (Prod.ext hc.2 hc.1)
      rw [hg']
      exact vf q hv hqin hqor
  · intro q hq hqin hqor
    rcases List.mem_cons.mp hq with he | hq2
    · exact he ▸ Reach.step hreach (by simp [nbrs]) (he ▸ hqin) (he ▸ hqor)
    · rcases List.mem_cons.mp hq2 with he | hq3
      · exact he ▸ Reach.step hreach (by simp [nbrs]) (he ▸ hqin) (he ▸ hqor)
      · rcases List.mem_cons.mp hq3 with he | hq4
        · exact he ▸ Reach.step hreach (by simp [nbrs]) (he ▸ hqin) (he ▸ hqor)
        · rcases List.mem_cons.mp hq4 with he | hq5
          · exact he ▸ Reach.step hreach (by simp [nbrs]) (he ▸ hqin) (he ▸ hqor)
          · exact so q (List.mem_cons_of_mem _ hq5) hqin hqor
  · intro x' y' hdiff q hq
    by_cases hxy : y' = y ∧ x' = x
    · obtain ⟨hy, hx⟩ := hxy
      subst hy; subst hx
      right
      simp only [nbrs, List.mem_cons, List.not_mem_nil, or_false] at hq
      simp only [List.mem_cons]
      tauto
    · have hg' : setPix g x y f y' x' = g y' x' := by simp [setPix, hxy]
      rw [hg'] at hdiff
      rcases cl x' y' hdiff q hq with hv | hs
      · exact Or.inl (Finset.mem_insert_of_mem hv)
      · rcases List.mem_cons.mp hs with he | hr
        · exact Or.inl (he ▸ Finset.mem_insert_self _ _)
        · right
          simp only [List.mem_cons]
          tauto
  · rcases si with hv | hs
    · exact Or.inl (Finset.mem_insert_of_mem hv)
    · rcases List.mem_cons.mp hs with he | hr
      · exact Or.inl (he ▸ Finset.mem_insert_self _ _)
      · right
        simp only [List.mem_cons]
        tauto

lemma reach_inb_target {w h : Int} {g : Pixels} {t : String} {s p : Cell}
    (hr : Reach w h g t s p) : inb w h p.1 p.2 ∧ g p.2 p.1 = t := by
  cases hr with
  | refl h1 h2 => exact ⟨h1, h2⟩
  | step _ _ h1 h2 => exact ⟨h1, h2⟩

lemma ffLoop_nil {w h : Int} {t f : String} {visited : Finset Cell} {g : Pixels} :
    ffLoop w h t f [] visited g = g := by
  rw [ffLoop]

lemma ffLoop_cons_visited {w h : Int} {t f : String} {x y : Int} {rest : List Cell}
    {visited : Finset Cell} {g : Pixels} (hm : (x, y) ∈ visited) :
    ffLoop w h t f ((x, y) :: rest) visited g = ffLoop w h t f rest visited g := by
  rw [ffLoop]
  simp [hm]

lemma ffLoop_cons_oob {w h : Int} {t f : String} {x y : Int} {rest : List Cell}
    {visited : Finset Cell} {g : Pixels} (hm : (x, y) ∉ visited)
    (hoob : ¬ inb w h x y) :
    ffLoop w h t f ((x, y) :: rest) visited g =
      ffLoop w h t f rest (insert (x, y) visited) g := by
  rw [ffLoop]
  simp [hm, hoob]

lemma ffLoop_cons_wrong {w h : Int} {t f : String} {x y : Int} {rest : List Cell}
    {visited : Finset Cell} {g : Pixels} (hm : (x, y) ∉ visited)
    (hin : inb w h x y) (hw : g y x ≠ t) :
    ffLoop w h t f ((x, y) :: rest) visited g =
      ffLoop w h t f rest (insert (x, y) visited) g := by
  rw [ffLoop]
  simp [hm, hin, hw]

lemma ffLoop_cons_push {w h : Int} {t f : String} {x y : Int} {rest : List Cell}
    {visited : Finset Cell} {g : Pixels} (hm : (x, y) ∉ visited)
    (hin : inb w h x y) (hc : g y x = t) :
    ffLoop w h t f ((x, y) :: rest) visited g =
      ffLoop w h t f ((x + 1, y) :: (x - 1, y) :: (x, y + 1) :: (x, y - 1) :: rest)
        (insert (x, y) visited) (setPix g x y f) := by
  rw [ffLoop]
  simp [hm, hin, hc]

lemma ffLoop_inv (w h : Int) (t f : String) (s : Cell) (orig : Pixels) :
    ∀ (stack : List Cell) (visited : Finset Cell) (g : Pixels),
      FFInv w h orig t f s stack visited g →
      ∃ v', FFInv w h orig t f s [] v' (ffLoop w h t f stack visited g) := by
  intro stack visited g
  induction stack, visited, g using ffLoop.induct w h t f with
  | case1 visited g =>
    intro inv
    exact ⟨visited, by rw [ffLoop_nil]; exact inv⟩
  | case2 x y rest visited g h1 ih =>
    intro inv
    rw [ffLoop_cons_visited h1]
    exact ih (ffInv_pop_visited h1 inv)
  | case3 x y rest visited g h1 h2 ih =>
    intro inv
    rw [ffLoop_cons_oob h1 h2]
    exact ih (ffInv_pop_discard (Or.inl h2) inv)
  | case4 x y rest visited g h1 h2 h3 ih =>
    intro inv
    rw [ffLoop_cons_wrong h1 (Decidable.not_not.mp h2) h3]
    exact ih (ffInv_pop_discard (Or.inr h3) inv)
  | case5 x y rest visited g h1 h2 h3 ih =>
    intro inv
    have hin := Decidable.not_not.mp h2
    have hc := Decidable.not_not.mp h3
    rw [ffLoop_cons_push h1 hin hc]
    exact ih (ffInv_push h1 hin hc inv)

lemma ffInv_final {w h : Int} {orig : Pixels} {t f : String} {s : Cell}
    {visited : Finset Cell} {g : Pixels}
    (inv : FFInv w h orig t f s [] visited g) :
    (∀ p : Cell, Reach w h orig t s p → g p.2 p.1 = f) ∧
    (∀ p : Cell, ¬ Reach w h orig t s p → g p.2 p.1 = orig p.2 p.1) := by
  obtain ⟨htf, gc, vf, so, cl, si⟩ := inv
  have hs : s ∈ visited := by
    rcases si with hv | hst
    · exact hv
    · exact absurd hst (List.not_mem_nil s)
  constructor
  · intro p hr
    induction hr with
    | refl h1 h2 => exact vf s hs h1 h2
    | step hp hq hqin hqor ih =>
      rename_i p' q'
      have hpt := reach_inb_target hp
      have hfilled : g p'.2 p'.1 ≠ orig p'.2 p'.1 := by
        rw [ih, hpt.2]
        exact fun he => htf he.symm
      have hcl := cl p'.1 p'.2 hfilled q' (by rw [Prod.mk.eta]; exact hq)
      rcases hcl with hv | hst
      · exact vf q' hv hqin hqor
      · exact absurd hst (List.not_mem_nil q')
  · intro p hnr
    rcases gc p.1 p.2 with hg | ⟨_, _, _, _, h5⟩
    · exact hg
    · rw [Prod.mk.eta] at h5
      exact absurd h5 hnr

/-- Claim C4: flood fill postcondition.  For every grid, in-bounds start cell
and replacement color different from the start cell's current (target)
color, after floodFill no cell 4-connected to the start through cells of
the original target color still holds the target color -- each such cell
holds the replacement color -- and every other cell keeps its prior
color. -/
theorem floodFill_correct (w h : Int) (g : Pixels) (sx sy : Int) (fill : String)
    (hin : inb w h sx sy) (hne : g sy sx ≠ fill) :
    (∀ x y : Int, Reach w h g (g sy sx) (sx, sy) (x, y) →
      floodFill w h sx sy (g sy sx) fill g y x = fill) ∧
    (∀ x y : Int, ¬ Reach w h g (g sy sx) (sx, sy) (x, y) →
      floodFill w h sx sy (g sy sx) fill g y x = g y x) := by
  have hun : floodFill w h sx sy (g sy sx) fill g =
      ffLoop w h (g sy sx) fill [(sx, sy)] ∅ g := by
    unfold floodFill
    rw [if_neg hne, if_neg (not_not_intro hin), if_neg (by simp)]
  have inv0 : FFInv w h g (g sy sx) fill (sx, sy) [(sx, sy)] ∅ g := by
    refine ⟨hne, fun x y => Or.inl rfl, ?_, ?_, ?_, Or.inr (List.mem_cons_self _ _)⟩
    · intro p hp
      exact absurd hp (Finset.not_mem_empty p)
    · intro p hp hpin hpor
      have hps : p = (sx, sy) := by simpa using hp
      subst hps
      exact Reach.refl hpin hpor
    · intro x y hdiff
      exact absurd rfl hdiff
  obtain ⟨v', invf⟩ := ffLoop_inv w h (g sy sx) fill (sx, sy) g [(sx, sy)] ∅ g inv0
  have post := ffInv_final invf
  rw [hun]
  exact ⟨fun x y hr => post.1 (x, y) hr, fun x y hnr => post.2 (x, y) hnr⟩

/-- An all-white 2 by 2 grid used as a concrete flood fill input. -/
def whiteGrid : Pixels := fun _ _ => "W"

/-- Witness for C4: filling the all-white 2 by 2 grid from its corner
recolors the opposite corner, which is reachable through two
4-connected steps. -/
theorem floodFill_correct_witness :
    floodFill 2 2 0 0 "W" "B" whiteGrid 1 1 = "B" := by
  have h0 : Reach 2 2 whiteGrid "W" ((0 : Int), (0 : Int)) ((0 : Int), (0 : Int)) :=
    Reach.refl (by decide) rfl
  have h1 : Reach 2 2 whiteGrid "W" ((0 : Int), (0 : Int)) ((1 : Int), (0 : Int)) :=
    Reach.step h0 (by decide) (by decide) rfl
  have hr : Reach 2 2 whiteGrid "W" ((0 : Int), (0 : Int)) ((1 : Int), (1 : Int)) :=
    Reach.step h1 (by decide) (by decide) rfl
  exact (floodFill_correct 2 2 whiteGrid 0 0 "B" (by decide) (by decide)).1 1 1 hr
